import Mathlib

/-!
Verification development for the LocalAgents core: a shallow embedding of
the structured-response parser (`core/responses.py`), the ReAct agent loop
(`core/engine.py`), the observability tracer (`core/observability.py`) and
the serialized request queue (`app/state.py`), together with theorems
settling the specification claims about them.

Machine strings are modeled as Lean `String`/`List Char`; Python's
whitespace set is modeled by its ASCII members, which covers every string
the embedded code paths distinguish.  Python `dict`s are modeled as
association lists with insertion-order update semantics.  The standard
library function `json.loads` (not part of this repository) is abstracted
as a `JsonDecoder` parameter; every theorem either quantifies over it or
evaluates at inputs where it is irrelevant.
-/

namespace LocalAgents

/-! ### Python string primitives -/

/-- ASCII members of Python's `str.strip()` whitespace set. -/
def pyIsSpace (c : Char) : Bool :=
  c = ' ' || c = '\t' || c = '\n' || c = '\r' || c = '\x0b' || c = '\x0c'

def lstripChars (l : List Char) : List Char := l.dropWhile pyIsSpace

def rstripChars (l : List Char) : List Char := (l.reverse.dropWhile pyIsSpace).reverse

/-- Python `str.strip()` on a character list. -/
def stripChars (l : List Char) : List Char := rstripChars (lstripChars l)

/-- Python `str.strip()`. -/
def pyStrip (s : String) : String := String.mk (stripChars s.toList)

/-- Python `str.splitlines()` (the `\n`, `\r\n`, `\r` terminators). -/
def splitLinesAux : List Char → List Char → List (List Char)
  | [], acc => if acc.isEmpty then [] else [acc.reverse]
  | '\r' :: '\n' :: rest, acc => acc.reverse :: splitLinesAux rest []
  | '\n' :: rest, acc => acc.reverse :: splitLinesAux rest []
  | '\r' :: rest, acc => acc.reverse :: splitLinesAux rest []
  | c :: rest, acc => splitLinesAux rest (c :: acc)

def splitLines (s : String) : List (List Char) := splitLinesAux s.toList []

/-- Python string slicing `s[:n]` by characters. -/
def pyTake (n : Nat) (s : String) : String := String.mk (s.toList.take n)

/-! ### Python dict semantics (association list, insertion order kept) -/

def dictLookup {α : Type} : List (String × α) → String → Option α
  | [], _ => none
  | (k, v) :: rest, key => if k = key then some v else dictLookup rest key

/-- `d[key] = v`: updates the value in place if the key exists, else appends. -/
def dictInsert {α : Type} : List (String × α) → String → α → List (String × α)
  | [], key, v => [(key, v)]
  | (k, w) :: rest, key, v =>
      if k = key then (k, v) :: rest else (k, w) :: dictInsert rest key v

/-! ### Value domain for mappings fed to pydantic validation -/

/-- Restriction of the Python/JSON value domain that the embedded code paths
inspect (`core/responses.py` only ever distinguishes strings, lists and
"anything else" when validating `ReActResponse` fields). -/
inductive PyVal where
  | vstr (s : String)
  | vint (n : Int)
  | vbool (b : Bool)
  | vnone
  | vlist (l : List PyVal)

/-- `json.loads` (Python standard library, external to this repository),
abstracted: `none` models a decode failure or a non-object result. -/
def JsonDecoder : Type := String → Option (List (String × PyVal))

/-! ### Structured response model (`core/responses.py`, `ReActResponse`) -/

/-- The `Literal["tool", "answer"]` type of the `action` field. -/
inductive PyAction where
  | tool
  | answer
deriving DecidableEq

def PyAction.toStr : PyAction → String
  | .tool => "tool"
  | .answer => "answer"

/-- The `str | list[str]` type of the `response` field. -/
inductive RespVal where
  | str (s : String)
  | list (l : List String)
deriving DecidableEq

/-- `ReActResponse` with its declared field defaults. -/
structure ReActResponse where
  observation : String := ""
  thinking : String := ""
  plan : List String := []
  action : PyAction := .answer
  response : RespVal := .str ""
deriving DecidableEq

/-- `ReActResponse.model_fields` key order. -/
def knownFields : List String := ["observation", "thinking", "plan", "action", "response"]

/-- `BaseResponse._strip_wrapping_quotes`. -/
def stripWrappingQuotes (value : String) : String :=
  let t := stripChars value.toList
  match t.head?, t.getLast? with
  | some c, some d =>
      if t.length ≥ 2 && c = d && (c = '\'' || c = '"') then
        String.mk ((t.drop 1).dropLast)
      else value
  | _, _ => value

/-- Pydantic validation of a `str`-annotated field with a default. -/
def vStrField (deflt : String) : Option PyVal → Option String
  | none => some deflt
  | some (.vstr s) => some s
  | some _ => none

def allStrs : List PyVal → Option (List String)
  | [] => some []
  | .vstr s :: rest => (allStrs rest).map (s :: ·)
  | _ :: _ => none

/-- Pydantic validation of the `list[str]`-annotated `plan` field. -/
def vListField : Option PyVal → Option (List String)
  | none => some []
  | some (.vlist l) => allStrs l
  | some _ => none

/-- Pydantic validation of the `Literal["tool", "answer"]` `action` field. -/
def vActionField : Option PyVal → Option PyAction
  | none => some .answer
  | some (.vstr "tool") => some .tool
  | some (.vstr "answer") => some .answer
  | some _ => none

/-- Pydantic validation of the `str | list[str]` `response` field. -/
def vRespField : Option PyVal → Option RespVal
  | none => some (.str "")
  | some (.vstr s) => some (.str s)
  | some (.vlist l) => (allStrs l).map .list
  | some _ => none

/-- The `_normalize_fields` model validator applied to `response`. -/
def normalizeResp : RespVal → RespVal
  | .str s => .str (stripWrappingQuotes s)
  | .list l => .list (l.map stripWrappingQuotes)

/-- `ReActResponse.model_validate` on a mapping, including the
`_normalize_fields` after-validator; `none` models a raised
`ValidationError`. -/
def validateReAct (d : List (String × PyVal)) : Option ReActResponse := do
  let obs ← vStrField "" (dictLookup d "observation")
  let th ← vStrField "" (dictLookup d "thinking")
  let pl ← vListField (dictLookup d "plan")
  let ac ← vActionField (dictLookup d "action")
  let rs ← vRespField (dictLookup d "response")
  some { observation := stripWrappingQuotes obs
         thinking := stripWrappingQuotes th
         plan := pl
         action := ac
         response := normalizeResp rs }

/-! ### TOON parser (`BaseResponse._parse_toon` and helpers) -/

/-- Values stored in the TOON data dict (strings or lists of strings). -/
inductive TV where
  | str (s : String)
  | list (l : List String)
deriving DecidableEq

def pyLowerChars (l : List Char) : List Char := l.map Char.toLower

/-- `BaseResponse._clean_toon_key`. -/
def cleanToonKey (raw : List Char) : String :=
  let k0 := stripChars raw
  let k1 :=
    match k0.head? with
    | some c =>
        if c = '-' || c = '*' then
          (k0.dropWhile (fun c => c = '-' || c = '*')).dropWhile pyIsSpace
        else k0
    | none => k0
  let ds := k1.takeWhile Char.isDigit
  let k2 :=
    if ds ≠ [] && (k1.drop ds.length).head? = some '.' then
      (k1.drop (ds.length + 1)).dropWhile pyIsSpace
    else k1
  let k3 := ((k2.dropWhile (· = '*')).reverse.dropWhile (· = '*')).reverse
  String.mk (pyLowerChars (stripChars k3))

/-- The `aliases = {"tool": "response"}` table. -/
def aliasKey (k : String) : String := if k = "tool" then "response" else k

/-- Pass 1 of `_parse_toon`: `(line_index, field_name, inline_value)` for
every line whose cleaned key is a declared field. -/
def toonFieldStarts (lines : List (List Char)) : List (Nat × String × String) :=
  lines.enum.filterMap fun p =>
    let stripped := stripChars p.2
    if stripped.contains ':' then
      let rawKey := stripped.takeWhile (· ≠ ':')
      let val := stripped.drop (rawKey.length + 1)
      let cleaned := aliasKey (cleanToonKey rawKey)
      if knownFields.contains cleaned then some (p.1, cleaned, String.mk (stripChars val))
      else none
    else none

/-- Top-level comma split of `_parse_bracket_list`, tracking `(){}[]` depth. -/
def splitTopAux : List Char → Int → List Char → List String → List String
  | [], _, cur, acc =>
      if cur.isEmpty then acc else acc ++ [String.mk (stripChars cur.reverse)]
  | c :: rest, depth, cur, acc =>
      if c = '(' || c = '\x7b' || c = '[' then splitTopAux rest (depth + 1) (c :: cur) acc
      else if c = ')' || c = '\x7d' || c = ']' then splitTopAux rest (depth - 1) (c :: cur) acc
      else if c = ',' && depth = 0 then splitTopAux rest 0 [] (acc ++ [String.mk (stripChars cur.reverse)])
      else splitTopAux rest depth (c :: cur) acc

/-- `BaseResponse._parse_bracket_list`. -/
def parseBracketList (value : String) : Option (List String) :=
  let v := stripChars value.toList
  if v.head? = some '[' && v.getLast? = some ']' && decide (v.length ≥ 2) then
    let inner := stripChars ((v.drop 1).dropLast)
    if inner.isEmpty then some [] else some (splitTopAux inner 0 [] [])
  else none

def isWordChar (c : Char) : Bool := c.isAlphanum || c = '_'

def digitsToNat (ds : List Char) : Nat := ds.foldl (fun a c => a * 10 + (c.toNat - 48)) 0

/-- The `^(\w+)\[(\d+)\]$` indexed-key pattern of `_set_toon_value`. -/
def keyIndexMatch (key : String) : Option (String × Nat) :=
  let l := key.toList
  let w := l.takeWhile isWordChar
  match l.drop w.length with
  | '[' :: rest2 =>
      let ds := rest2.takeWhile Char.isDigit
      if w ≠ [] && ds ≠ [] && rest2.drop ds.length = [']'] then
        some (String.mk w, digitsToNat ds)
      else none
  | _ => none

/-- `while len(lst) <= idx: lst.append(""); lst[idx] = value`. -/
def padSet (l : List String) (idx : Nat) (v : String) : List String :=
  (l ++ List.replicate (idx + 1 - l.length) "").set idx v

/-- `BaseResponse._set_toon_value`; `none` models the `AttributeError`
raised when an indexed key lands on an existing string value. -/
def setToonValue (data : List (String × TV)) (key : String) (value : String) :
    Option (List (String × TV)) :=
  match parseBracketList value with
  | some items => some (dictInsert data key (.list items))
  | none =>
    match keyIndexMatch key with
    | some (base, idx) =>
      match dictLookup data base with
      | none => some (dictInsert data base (.list (padSet [] idx value)))
      | some (.list l) => some (dictInsert data base (.list (padSet l idx value)))
      | some (.str _) => none
    | none => some (dictInsert data key (.str value))

def joinLinesChars (ls : List (List Char)) : List Char := (ls.intersperse ['\n']).flatten

def sliceLines (lines : List (List Char)) (a b : Nat) : List (List Char) :=
  (lines.drop a).take (b - a)

/-- Pass 2 of `_parse_toon`: extract each field's value between field
boundaries and store it via `_set_toon_value`. -/
def buildToonDataAux (lines : List (List Char)) :
    List (Nat × String × String) → List (String × TV) → Option (List (String × TV))
  | [], data => some data
  | (startIdx, name, firstVal) :: rest, data =>
    let endIdx :=
      match rest with
      | (nextIdx, _, _) :: _ => nextIdx
      | [] => lines.length
    let parts := (if firstVal = "" then [] else [firstVal.toList]) ++
      sliceLines lines (startIdx + 1) endIdx
    let value := String.mk (stripChars (joinLinesChars parts))
    match setToonValue data name value with
    | some data2 => buildToonDataAux lines rest data2
    | none => none

/-- Truthiness of `data.get("response")` in the action-coercion block. -/
def respFalsy (d : List (String × TV)) : Bool :=
  match dictLookup d "response" with
  | none => true
  | some (.str s) => s = ""
  | some (.list l) => l.isEmpty

/-- The action-value coercion block at the end of `_parse_toon`; `none`
models the `AttributeError` raised by `data.get("action", "").strip()`
when the captured action value is a list. -/
def actionCoercion (d : List (String × TV)) : Option (List (String × TV)) :=
  match dictLookup d "action" with
  | none => some d
  | some (.list _) => none
  | some (.str a0) =>
    let a := pyStrip a0
    if a ≠ "" && a ≠ "tool" && a ≠ "answer" then
      let d1 :=
        if (a.toList.contains '(' || a.toList.contains '\x7b') && respFalsy d then
          dictInsert d "response" (.str a)
        else d
      some (dictInsert d1 "action" (.str "tool"))
    else some d

def toonLines (text : String) : List (List Char) := splitLines text

def toonFieldStartsOf (text : String) : List (Nat × String × String) :=
  toonFieldStarts (toonLines text)

/-- Passes 1 and 2 of `_parse_toon` (the data dict before action coercion). -/
def toonData (text : String) : Option (List (String × TV)) :=
  buildToonDataAux (toonLines text) (toonFieldStartsOf text) []

/-- `BaseResponse._parse_toon`; `none` models a raised exception. -/
def parseToon (text : String) : Option (List (String × TV)) :=
  if toonFieldStartsOf text = [] then some []
  else (toonData text).bind actionCoercion

/-! ### JSON path and the `from_raw` pipeline -/

/-- `BaseResponse._extract_json_object`: first balanced top-level brace span.
Returns `none` where the Python code raises `ValueError`. -/
def extractJsonAux (orig : List Char) : List Char → Nat → Int → Option Nat → Option String
  | [], _, _, _ => none
  | c :: rest, i, depth, start =>
    if c = '\x7b' then
      extractJsonAux orig rest (i + 1) (depth + 1) (if depth = 0 then some i else start)
    else if c = '\x7d' then
      match start with
      | some s =>
          if depth - 1 = 0 then some (String.mk ((orig.drop s).take (i + 1 - s)))
          else extractJsonAux orig rest (i + 1) (depth - 1) (some s)
      | none => extractJsonAux orig rest (i + 1) (depth - 1) none
    else extractJsonAux orig rest (i + 1) depth start

def extractJsonObject (s : String) : Option String :=
  extractJsonAux s.toList s.toList 0 0 none

/-- `set(cls.model_fields.keys()) & set(data.keys())` is non-empty. -/
def keysIntersect (d : List (String × PyVal)) : Bool :=
  d.any (fun kv => knownFields.contains kv.1)

/-- The JSON recovery branch of `from_raw`: extract a brace span, decode it,
accept only if the decoded keys intersect the schema and validation
succeeds; any failure falls through (`none`). -/
def jsonStep (jl : JsonDecoder) (raw : String) : Option ReActResponse :=
  match extractJsonObject raw with
  | none => none
  | some js =>
    match jl js with
    | none => none
    | some d => if keysIntersect d then validateReAct d else none

def TV.toPyVal : TV → PyVal
  | .str s => .vstr s
  | .list l => .vlist (l.map .vstr)

/-- `cls.model_validate` applied to the TOON data dict. -/
def validateToon (d : List (String × TV)) : Option ReActResponse :=
  validateReAct (d.map fun kv => (kv.1, kv.2.toPyVal))

/-- The `re.sub(r"^\s*(\d+\.|\-|\*)\s*", "", ln)` bullet/number strip. -/
def stripBulletNum (l : List Char) : List Char :=
  let l1 := l.dropWhile pyIsSpace
  let ds := l1.takeWhile Char.isDigit
  if ds ≠ [] && (l1.drop ds.length).head? = some '.' then
    (l1.drop (ds.length + 1)).dropWhile pyIsSpace
  else
    match l1 with
    | '-' :: rest => rest.dropWhile pyIsSpace
    | '*' :: rest => rest.dropWhile pyIsSpace
    | _ => l

/-- `BaseResponse._coerce_list_fields` for the `ReActResponse` schema, whose
only `list`-annotated field is `plan`. -/
def coerceListFields (d : List (String × TV)) : List (String × TV) :=
  match dictLookup d "plan" with
  | some (.str s) =>
    match parseBracketList s with
    | some items => dictInsert d "plan" (.list items)
    | none =>
      let ls := ((splitLines s).map stripChars).filter (fun ln => !ln.isEmpty)
      dictInsert d "plan" (.list (ls.map fun ln => String.mk (stripChars (stripBulletNum ln))))
  | _ => d

/-- The TOON recovery branch of `from_raw`: parse, skip on an empty dict or
an exception, validate, re-validate after list coercion; any failure falls
through (`none`). -/
def toonStep (raw : String) : Option ReActResponse :=
  match parseToon raw with
  | none => none
  | some [] => none
  | some d =>
    match validateToon d with
    | some r => some r
    | none => validateToon (coerceListFields d)

/-- The fallback branch of `from_raw`: `{"response": raw.strip()}` validated,
falling back to `model_construct` (defaults, validators skipped). -/
def fallbackParse (raw : String) : ReActResponse :=
  match validateReAct [("response", .vstr (pyStrip raw))] with
  | some r => r
  | none => { response := .str (pyStrip raw) }

/-- `from_raw` restricted to string input: JSON, then TOON, then fallback.
Total because every recovery branch is inside `try/except` in the source. -/
def fromRawStr (jl : JsonDecoder) (raw : String) : ReActResponse :=
  match jsonStep jl raw with
  | some r => r
  | none =>
    match toonStep raw with
    | some r => r
    | none => fallbackParse raw

/-- The three input shapes `from_raw` distinguishes (any other object is
stringified first, collapsing into the `str` case). -/
inductive RawInput where
  | inst (r : ReActResponse)
  | dict (d : List (String × PyVal))
  | str (s : String)

/-- `ReActResponse.from_raw`; `none` models a raised exception. -/
def from_raw (jl : JsonDecoder) : RawInput → Option ReActResponse
  | .inst r => some r
  | .dict d => validateReAct d
  | .str s => some (fromRawStr jl s)

/-! ### Tool-call extraction (`BaseAgent.parse_tool_calls`) -/

/-- The non-greedy `\x7b.*?\x7d\s*\)` tail of the call regex: the body runs to
the first closing brace that is followed by optional whitespace and `)`. -/
def grabBody : List Char → Option (List Char × List Char)
  | [] => none
  | c :: rest =>
    if c = '\x7d' then
      match rest.dropWhile pyIsSpace with
      | ')' :: r => some ([], r)
      | _ =>
        match grabBody rest with
        | some (body, r) => some (c :: body, r)
        | none => none
    else
      match grabBody rest with
      | some (body, r) => some (c :: body, r)
      | none => none

/-- One attempt of the `(\w+)\s*\(\s*(\x7b.*?\x7d)\s*\)` pattern at the head of
the input; on success returns the name, the brace group, and the rest. -/
def tryCallMatch (l : List Char) : Option (String × String × List Char) :=
  let w := l.takeWhile isWordChar
  if w.isEmpty then none
  else
    match (l.drop w.length).dropWhile pyIsSpace with
    | '(' :: r2 =>
      match r2.dropWhile pyIsSpace with
      | '\x7b' :: r3 =>
        match grabBody r3 with
        | some (body, rest) => some (String.mk w, String.mk ('\x7b' :: (body ++ ['\x7d'])), rest)
        | none => none
      | _ => none
    | _ => none

/-- `re.finditer` scan: leftmost matches, resuming after each match end. -/
def scanCalls : Nat → List Char → List (String × String)
  | 0, _ => []
  | _ + 1, [] => []
  | fuel + 1, l =>
    match tryCallMatch l with
    | some (nm, g2, rest) => (nm, g2) :: scanCalls fuel rest
    | none => scanCalls fuel l.tail

/-- `" ".join(str(item) ...)` flattening of a list-valued response. -/
def flattenResp : RespVal → String
  | .str s => s
  | .list l => String.intercalate " " l

/-- `BaseAgent.parse_tool_calls`: a call whose brace group fails JSON
decoding degenerates to a single `query` argument holding the matched
group. -/
def parseToolCalls (jl : JsonDecoder) (respText : RespVal) :
    List (String × List (String × PyVal)) :=
  let raw := (flattenResp respText).toList
  (scanCalls (raw.length + 1) raw).map fun p =>
    (p.1,
      match jl p.2 with
      | some args => args
      | none => [("query", .vstr p.2)])

/-! ### ReAct loop (`core/engine.py`, `ReActAgent.invoke`) -/

/-- Trace events as the loop model records them (type and status tag). -/
structure Ev where
  type : String
  status : Option String := none
deriving DecidableEq

inductive Role where
  | system
  | user
  | assistant
deriving DecidableEq

/-- A conversation `Message`. -/
structure Message where
  role : Role
  content : String
deriving DecidableEq

/-- A registered capability: `invoke(mapping) -> string`; `.error` models a
raised exception inside the tool. -/
def ToolFn : Type := List (String × PyVal) → Except String String

/-- Observable loop state: trace events, conversation history, and the
number of inference calls made. -/
structure LoopState where
  events : List Ev := []
  hist : List Message := []
  inferCalls : Nat := 0
deriving DecidableEq

/-- Outcome of one inference call: a parsed `ReActResponse` or a raised
transport exception.  The inference capability is modeled as an oracle over
the iteration index, which abstracts the rendered prompt; the claims below
quantify over all such oracles. -/
inductive InferOutcome where
  | ok (r : ReActResponse)
  | raise (e : String)

/-- `", ".join(self._tools_map.keys()) or "none"`. -/
def availableStr (tools : List (String × ToolFn)) : String :=
  match tools with
  | [] => "none"
  | _ => String.intercalate ", " (tools.map Prod.fst)

/-- `BaseAgent.execute_tool`: never raises; returns the result string (or an
error string) plus the trace events it records.  The missing-key branch is
unreachable from `invoke`, which checks membership first; its `KeyError`
message quoting is modeled with an explicit quote character. -/
def executeTool (tools : List (String × ToolFn)) (name : String)
    (args : List (String × PyVal)) : String × List Ev :=
  match dictLookup tools name with
  | some fn =>
    match fn args with
    | .ok r => (r, [⟨"tool_start", none⟩, ⟨"tool_end", none⟩])
    | .error e =>
        ("Error executing " ++ name ++ ": " ++ e,
         [⟨"tool_start", none⟩, ⟨"tool_error", some "error"⟩])
  | none =>
      ("Error executing " ++ name ++ ": " ++ String.singleton '\'' ++ name ++ String.singleton '\'',
       [⟨"tool_start", none⟩, ⟨"tool_error", some "error"⟩])

/-- The per-call body of the tool branch: unknown names synthesize a
"Tool not found" observation; known names run through `execute_tool`. -/
def processCalls (tools : List (String × ToolFn)) :
    List (String × List (String × PyVal)) → List String × List Ev
  | [] => ([], [])
  | (nm, args) :: rest =>
    let head :=
      if nm = "" || (dictLookup tools nm).isNone then
        (nm ++ ": Tool not found. Available: " ++ availableStr tools, ([] : List Ev))
      else
        let r := executeTool tools nm args
        (nm ++ ": " ++ r.1, r.2)
    let tail := processCalls tools rest
    (head.1 :: tail.1, head.2 ++ tail.2)

/-- `str(response_text[0]) if isinstance(response_text, list) else
str(response_text)`; `none` models the `IndexError` on an empty list. -/
def respStrOf : RespVal → Option String
  | .str s => some s
  | .list [] => none
  | .list (x :: _) => some x

def evIterStart : Ev := ⟨"iteration_start", none⟩

def evError : Ev := ⟨"error", some "error"⟩

def evMaxIter : Ev := ⟨"max_iterations", some "error"⟩

/-- One iteration of `ReActAgent.invoke` (lines 328-419): everything after
the `iteration_start` event sits inside the iteration's `try`; a raised
exception becomes an error event plus an error history turn and the loop
continues (`none`); only the `answer` branch returns (`some`). -/
def stepIter (tools : List (String × ToolFn)) (jl : JsonDecoder)
    (infer : Nat → InferOutcome) (idx : Nat) (s : LoopState) :
    LoopState × Option ReActResponse :=
  match infer idx with
  | .raise e =>
      ({ events := s.events ++ [evIterStart, evError],
         hist := s.hist ++ [⟨.user, "Error: " ++ e⟩],
         inferCalls := s.inferCalls + 1 }, none)
  | .ok parsed =>
    match respStrOf parsed.response with
    | none =>
        ({ events := s.events ++ [evIterStart, evError],
           hist := s.hist ++ [⟨.user, "Error: list index out of range"⟩],
           inferCalls := s.inferCalls + 1 }, none)
    | some responseStr =>
      let evs1 := s.events ++ [evIterStart, ⟨"model_end", none⟩] ++
        (if parsed.thinking ≠ "" then [⟨"thought", none⟩] else [])
      let hist1 := s.hist ++
        [⟨.assistant, "[action=" ++ parsed.action.toStr ++ "] " ++ pyTake 120 responseStr⟩]
      match parsed.action with
      | .answer =>
          ({ events := evs1 ++ [⟨"answer", none⟩], hist := hist1,
             inferCalls := s.inferCalls + 1 }, some parsed)
      | .tool =>
        match parseToolCalls jl parsed.response with
        | [] =>
            ({ events := evs1 ++ [⟨"tool_parse_error", none⟩],
               hist := hist1 ++ [⟨.user, "Result: Error: No valid tool call found in response"⟩],
               inferCalls := s.inferCalls + 1 }, none)
        | c :: cs =>
          let r := processCalls tools (c :: cs)
          ({ events := evs1 ++ r.2,
             hist := hist1 ++ [⟨.user, "Result: " ++ String.intercalate "\n" r.1⟩],
             inferCalls := s.inferCalls + 1 }, none)

/-- The `for iteration in range(max_iters)` loop. -/
def runIters (tools : List (String × ToolFn)) (jl : JsonDecoder)
    (infer : Nat → InferOutcome) : Nat → Nat → LoopState → LoopState × Option ReActResponse
  | 0, _, s => (s, none)
  | n + 1, idx, s =>
    match stepIter tools jl infer idx s with
    | (s2, some r) => (s2, some r)
    | (s2, none) => runIters tools jl infer n (idx + 1) s2

/-- The synthetic terminal response returned on exhaustion. -/
def syntheticExhausted : ReActResponse :=
  { observation := "Max iterations reached"
    plan := []
    action := .answer
    response := .str ("I couldn" ++ String.singleton '\'' ++
      "t complete the task within the allowed iterations.") }

/-- `ReActAgent.invoke`: clears history, appends the user query, iterates up
to `maxIters` times, and falls back to the synthetic exhaustion response
after recording a `max_iterations` trace event.  (The surrounding
`trace_scope` correlation is modeled separately by `traceScope`.) -/
def invokeAgent (tools : List (String × ToolFn)) (jl : JsonDecoder)
    (infer : Nat → InferOutcome) (maxIters : Nat) (query : String) :
    LoopState × ReActResponse :=
  let s0 : LoopState := { hist := [⟨.user, query⟩] }
  match runIters tools jl infer maxIters 0 s0 with
  | (s, some r) => (s, r)
  | (s, none) => ({ s with events := s.events ++ [evMaxIter] }, syntheticExhausted)

/-! ### Capability map construction (`BaseAgent._build_tools_map`) -/

/-- Identity of a registered capability: the async sub-agent wrapper
closure, or the plain function itself. -/
inductive Cap where
  | wrapped (agentId : Nat)
  | direct (funcId : Nat)
deriving DecidableEq

/-- The runtime shapes `_build_tools_map` distinguishes: a `BaseAgent`, a
plain callable, a class (callable but `isinstance(tool, type)`), and a
non-callable object. -/
inductive PyTool where
  | agent (name : String) (id : Nat)
  | func (name : String) (id : Nat)
  | classTool (name : String)
  | nonCallable

/-- The registration a tool contributes, if any. -/
def toolReg : PyTool → Option (String × Cap)
  | .agent n i => some (n, .wrapped i)
  | .func n i => some (n, .direct i)
  | .classTool _ => none
  | .nonCallable => none

/-- One loop body of `_build_tools_map`: `tools_map[name] = capability`. -/
def regStep (m : List (String × Cap)) (t : PyTool) : List (String × Cap) :=
  match toolReg t with
  | some r => dictInsert m r.1 r.2
  | none => m

/-- `BaseAgent._build_tools_map`: a plain dict filled in declaration order. -/
def build_tools_map (tools : List PyTool) : List (String × Cap) :=
  tools.foldl regStep []

/-- What the spec's words would require after amendment: the capability of
the latest-registered tool carrying the name (later entries take
precedence). -/
def lastRegistered : List PyTool → String → Option Cap
  | [], _ => none
  | t :: ts, n =>
    match lastRegistered ts n with
    | some c => some c
    | none =>
      match toolReg t with
      | some r => if r.1 = n then some r.2 else none
      | none => none

/-! ### Request queue (`app/state.py`, `OrchestratorQueue._worker_loop`) -/

/-- A one-shot completion handle (`asyncio.Future`). -/
inductive FutState (α : Type) where
  | pending
  | result (v : α)
  | errored (e : String)
deriving DecidableEq

/-- A queued `OrchestratorRequest`. -/
structure QReq (α : Type) where
  text : String
  fut : FutState α

/-- `if not request.future.done(): request.future.set_result(result)`. -/
def resolveResult {α : Type} : FutState α → α → FutState α
  | .pending, v => .result v
  | f, _ => f

/-- `if not request.future.done(): request.future.set_exception(exc)`. -/
def resolveError {α : Type} : FutState α → String → FutState α
  | .pending, e => .errored e
  | f, _ => f

def orchNotInit : String := "Orchestrator not initialized — call build_orchestrator() first"

/-- One pass of the worker body: the `try` covers the orchestrator guard and
the invocation; the `except` resolves the handle with the caught error. -/
def processOne {α : Type} (orchReady : Bool) (invoke : String → Except String α)
    (r : QReq α) : FutState α :=
  if orchReady then
    match invoke r.text with
    | .ok v => resolveResult r.fut v
    | .error e => resolveError r.fut e
  else resolveError r.fut orchNotInit

/-- The worker loop over a FIFO prefix of the queue: each request is
processed once, in order, regardless of earlier failures. -/
def workerRun {α : Type} (orchReady : Bool) (invoke : String → Except String α)
    (reqs : List (QReq α)) : List (FutState α) :=
  reqs.map (processOne orchReady invoke)

/-! ### Tracer sequence numbers (`core/observability.py`) -/

/-- Tracer state: the `_EVENT_SEQ` counter and the `seq` values of the
events emitted so far (allocation happens under `_LOCK`, so one process-wide
interleaving of calls is modeled). -/
structure TracerSt where
  seq : Nat := 0
  emitted : List Nat := []
deriving DecidableEq

/-- `log_event`'s seq behavior: when observability is disabled the call
returns before allocating; otherwise `_next_seq` increments and the event
carries the new value (durable-write and sink failures are swallowed after
allocation and do not affect the emitted event). -/
def logEventSeq (enabled : Bool) (st : TracerSt) : TracerSt :=
  if enabled then { seq := st.seq + 1, emitted := st.emitted ++ [st.seq + 1] } else st

/-- A whole sequence of `log_event` calls. -/
def runLog : List Bool → TracerSt → TracerSt
  | [], st => st
  | e :: rest, st => runLog rest (logEventSeq e st)

/-- `seqFrom s n = [s+1, s+2, ..., s+n]`. -/
def seqFrom : Nat → Nat → List Nat
  | _, 0 => []
  | s, n + 1 => (s + 1) :: seqFrom (s + 1) n

def countEnabled (flags : List Bool) : Nat := (flags.filter id).length

/-! ### Metadata sanitization (`_truncate` / `_sanitize`) -/

/-- The value domain `_sanitize` dispatches on.  Floats are carried
opaquely (only identity behavior is at stake); dict keys are modeled as
strings, on which the `str(k)` in the source is the identity. -/
inductive SVal where
  | vnone
  | vbool (b : Bool)
  | vint (n : Int)
  | vfloat (q : Rat)
  | vstr (s : String)
  | vlist (l : List SVal)
  | vdict (d : List (String × SVal))

/-- `_truncate`. -/
def pyTruncate (maxLen : Int) (s : String) : String :=
  if maxLen ≤ 0 || (s.length : Int) ≤ maxLen then s
  else String.mk (s.toList.take (maxLen - 3).toNat) ++ "..."

/-- `_sanitize`. -/
def sanitize (m : Int) : SVal → SVal
  | .vnone => .vnone
  | .vstr s => .vstr (pyTruncate m s)
  | .vint n => .vint n
  | .vfloat q => .vfloat q
  | .vbool b => .vbool b
  | .vlist l => .vlist (l.attach.map fun x => sanitize m x.1)
  | .vdict d => .vdict (d.attach.map fun x => (x.1.1, sanitize m x.1.2))
decreasing_by
  all_goals have h1 := List.sizeOf_lt_of_mem x.2
  all_goals try obtain ⟨⟨a, b⟩, hx⟩ := x
  all_goals simp_all
  all_goals omega

/-! ### Trace correlation (`trace_scope`) -/

/-- An event as emitted by `trace_scope` (type, agent, trace id). -/
structure ScopeEv where
  type : String
  agent : String
  tid : String
deriving DecidableEq

/-- `trace_scope`: the context variable is passed explicitly; `body`
receives the installed value and yields the events of the scope body.
Returns the emitted events and the context value after exit (the token
reset restores the prior value for a root scope; a nested scope installs
nothing). -/
def traceScope (agent : String) (fresh : String) (ctx : Option String)
    (body : Option String → List ScopeEv) : List ScopeEv × Option String :=
  let isRoot := ctx.isNone
  let tid := ctx.getD fresh
  let installed := if isRoot then some tid else ctx
  let evs := ⟨if isRoot then "trace_start" else "agent_start", agent, tid⟩ ::
    (body installed ++ [⟨if isRoot then "trace_end" else "agent_end", agent, tid⟩])
  (evs, if isRoot then ctx else installed)

/-! ### Concrete data for witnesses -/

/-- A JSON decoder that always fails; irrelevant on every input below that
contains no brace span reaching `json.loads`. -/
def jl0 : JsonDecoder := fun _ => none

/-- A stub inference result: `action=tool` with an unresolvable tool name. -/
def stubResp : ReActResponse := { action := .tool, response := .str "missing(\x7b\x7d)" }

def stubInfer : Nat → InferOutcome := fun _ => .ok stubResp

def boomInfer : Nat → InferOutcome := fun _ => .raise "boom"

/-- The spec's action-coercion sample output text. -/
def sampleToonText : String :=
  "action: web_search\n\nresponse: web_search(\x7b\"query\":\"x\"\x7d)"

def okInvoke : String → Except String Nat := fun _ => .ok 0

/-! ## Helper lemmas -/

theorem dictLookup_dictInsert {α : Type} (m : List (String × α)) (k : String) (v : α)
    (key : String) :
    dictLookup (dictInsert m k v) key = if k = key then some v else dictLookup m key := by
  induction m with
  | nil => simp [dictInsert, dictLookup]
  | cons p rest ih =>
    obtain ⟨a, b⟩ := p
    by_cases hak : a = k
    · subst hak
      rw [show dictInsert ((a, b) :: rest) a v = (a, v) :: rest from by simp [dictInsert]]
      by_cases hkey : a = key
      · rw [show dictLookup ((a, v) :: rest) key = some v from by simp [dictLookup, hkey],
            if_pos hkey]
      · rw [show dictLookup ((a, v) :: rest) key = dictLookup rest key from by
              simp [dictLookup, hkey],
            if_neg hkey,
            show dictLookup ((a, b) :: rest) key = dictLookup rest key from by
              simp [dictLookup, hkey]]
    · rw [show dictInsert ((a, b) :: rest) k v = (a, b) :: dictInsert rest k v from by
            simp [dictInsert, hak]]
      by_cases hkey : a = key
      · subst hkey
        have hka : ¬k = a := fun h => hak h.symm
        rw [show dictLookup ((a, b) :: dictInsert rest k v) a = some b from by simp [dictLookup],
            if_neg hka,
            show dictLookup ((a, b) :: rest) a = some b from by simp [dictLookup]]
      · rw [show dictLookup ((a, b) :: dictInsert rest k v) key =
                dictLookup (dictInsert rest k v) key from by simp [dictLookup, hkey],
            ih,
            show dictLookup ((a, b) :: rest) key = dictLookup rest key from by
              simp [dictLookup, hkey]]

theorem stepIter_tool_continue (tools : List (String × ToolFn)) (jl : JsonDecoder)
    (infer : Nat → InferOutcome) (idx : Nat) (s : LoopState) (r : ReActResponse)
    (h : infer idx = .ok r) (ha : r.action = .tool) :
    (stepIter tools jl infer idx s).2 = none ∧
    (stepIter tools jl infer idx s).1.inferCalls = s.inferCalls + 1 := by
  simp only [stepIter, h]
  cases hr : respStrOf r.response with
  | none => simp
  | some str =>
    rw [ha]
    cases hc : parseToolCalls jl r.response with
    | nil => simp
    | cons c cs => simp

theorem runIters_all_tool (tools : List (String × ToolFn)) (jl : JsonDecoder)
    (infer : Nat → InferOutcome)
    (h : ∀ i, ∃ r, infer i = .ok r ∧ r.action = .tool) :
    ∀ (n idx : Nat) (s : LoopState),
      (runIters tools jl infer n idx s).2 = none ∧
      (runIters tools jl infer n idx s).1.inferCalls = s.inferCalls + n := by
  intro n
  induction n with
  | zero => intro idx s; simp [runIters]
  | succ n ih =>
    intro idx s
    obtain ⟨r, hr, ha⟩ := h idx
    obtain ⟨h1, h2⟩ := stepIter_tool_continue tools jl infer idx s r hr ha
    simp only [runIters]
    cases hstep : stepIter tools jl infer idx s with
    | mk s2 ret =>
      rw [hstep] at h1 h2
      simp at h1 h2
      subst h1
      obtain ⟨g1, g2⟩ := ih (idx + 1) s2
      simp only [g1, g2, h2, true_and]
      omega

theorem stepIter_some_action (tools : List (String × ToolFn)) (jl : JsonDecoder)
    (infer : Nat → InferOutcome) (idx : Nat) (s : LoopState) (s2 : LoopState)
    (r : ReActResponse) (h : stepIter tools jl infer idx s = (s2, some r)) :
    r.action = .answer := by
  cases hi : infer idx with
  | raise e => simp [stepIter, hi] at h
  | ok parsed =>
    cases hr : respStrOf parsed.response with
    | none => simp [stepIter, hi, hr] at h
    | some str =>
      cases ha : parsed.action with
      | tool =>
        cases hc : parseToolCalls jl parsed.response with
        | nil => simp [stepIter, hi, hr, ha, hc] at h
        | cons c cs => simp [stepIter, hi, hr, ha, hc] at h
      | answer =>
        simp only [stepIter, hi, hr, ha, Prod.mk.injEq, Option.some.injEq] at h
        rw [← h.2, ha]

theorem runIters_some_action (tools : List (String × ToolFn)) (jl : JsonDecoder)
    (infer : Nat → InferOutcome) :
    ∀ (n idx : Nat) (s s2 : LoopState) (r : ReActResponse),
      runIters tools jl infer n idx s = (s2, some r) → r.action = .answer := by
  intro n
  induction n with
  | zero => intro idx s s2 r h; simp [runIters] at h
  | succ n ih =>
    intro idx s s2 r h
    simp only [runIters] at h
    cases hstep : stepIter tools jl infer idx s with
    | mk s3 ret =>
      rw [hstep] at h
      cases ret with
      | some r2 =>
        have ha := stepIter_some_action tools jl infer idx s s3 r2 hstep
        simp only [Prod.mk.injEq, Option.some.injEq] at h
        rw [← h.2]
        exact ha
      | none => exact ih (idx + 1) s3 s2 r h

theorem lookup_foldl_regStep (tools : List PyTool) :
    ∀ (m : List (String × Cap)) (name : String),
      dictLookup (tools.foldl regStep m) name =
        match lastRegistered tools name with
        | some c => some c
        | none => dictLookup m name := by
  induction tools with
  | nil => intro m name; simp [lastRegistered]
  | cons t ts ih =>
    intro m name
    simp only [List.foldl_cons, lastRegistered]
    rw [ih]
    cases hts : lastRegistered ts name with
    | some c => simp
    | none =>
      simp only []
      cases ht : toolReg t with
      | none => simp [regStep, ht]
      | some p =>
        obtain ⟨nm, cap⟩ := p
        simp only [regStep, ht, dictLookup_dictInsert]
        by_cases hn : nm = name <;> simp [hn]

theorem runLog_spec : ∀ (flags : List Bool) (st : TracerSt),
    runLog flags st =
      { seq := st.seq + countEnabled flags,
        emitted := st.emitted ++ seqFrom st.seq (countEnabled flags) } := by
  intro flags
  induction flags with
  | nil => intro st; simp [runLog, countEnabled, seqFrom]
  | cons e rest ih =>
    intro st
    have hrl : runLog (e :: rest) st = runLog rest (logEventSeq e st) := rfl
    rw [hrl, ih]
    cases e with
    | true =>
      have h1 : logEventSeq true st = { seq := st.seq + 1, emitted := st.emitted ++ [st.seq + 1] } := rfl
      have hc : countEnabled (true :: rest) = countEnabled rest + 1 := by
        simp [countEnabled, List.filter]
      rw [h1, hc]
      simp only [TracerSt.mk.injEq, seqFrom]
      constructor
      · omega
      · simp
    | false =>
      have h1 : logEventSeq false st = st := rfl
      have hc : countEnabled (false :: rest) = countEnabled rest := by
        simp [countEnabled, List.filter]
      rw [h1, hc]

theorem seqFrom_length : ∀ (s n : Nat), (seqFrom s n).length = n := by
  intro s n
  induction n generalizing s with
  | zero => simp [seqFrom]
  | succ n ih => simp [seqFrom, ih]

theorem seqFrom_chain : ∀ (n s : Nat), List.Chain' (· < ·) (seqFrom s n) := by
  intro n
  induction n with
  | zero => intro s; simp [seqFrom]
  | succ n ih =>
    intro s
    cases n with
    | zero => simp [seqFrom]
    | succ k =>
      simp only [seqFrom]
      rw [List.chain'_cons]
      exact ⟨by omega, by simpa [seqFrom] using ih (s + 1)⟩

theorem sanitize_vlist (m : Int) (l : List SVal) :
    sanitize m (.vlist l) = .vlist (l.map (sanitize m)) := by
  rw [sanitize]
  congr 1
  exact List.attach_map_val l (sanitize m)

theorem sanitize_vdict (m : Int) (d : List (String × SVal)) :
    sanitize m (.vdict d) = .vdict (d.map fun kv => (kv.1, sanitize m kv.2)) := by
  rw [sanitize]
  congr 1
  exact List.attach_map_val d (fun kv => (kv.1, sanitize m kv.2))

/-! ## Claims -/

/-- C1 (counterexample): `from_raw` is not total on mappings — a dict whose
`action` value fails the `Literal` validation raises a `ValidationError`
(`model_validate` on the dict branch is unguarded) — and the fallback for a
quoted string strips the wrapping quotes, so its `response` is not the
trimmed input. -/
theorem from_raw_claim_counterexample :
    from_raw jl0 (.dict [("action", .vstr "banana")]) = none ∧
    from_raw jl0 (.str "\"hello\"") = some { response := RespVal.str "hello" } ∧
    pyStrip "\"hello\"" ≠ "hello" := by
  refine ⟨rfl, rfl, ?_⟩
  decide

/-- C1 (amended): `from_raw` passes an already-typed instance through,
validates a mapping directly (raising when the mapping fails the schema),
never raises on string input, and for a string with no recognizable field
markers (no accepted JSON span, no TOON field line) returns an instance
whose `response` is the trimmed input with one symmetric pair of wrapping
quotes removed when present. -/
theorem from_raw_recovery (jl : JsonDecoder) :
    (∀ r, from_raw jl (.inst r) = some r) ∧
    (∀ d, from_raw jl (.dict d) = validateReAct d) ∧
    (∀ s, (from_raw jl (.str s)).isSome = true) ∧
    (∀ s, jsonStep jl s = none → toonFieldStartsOf s = [] →
      from_raw jl (.str s) =
        some { response := RespVal.str (stripWrappingQuotes (pyStrip s)) }) := by
  refine ⟨fun r => rfl, fun d => rfl, fun s => rfl, fun s hj ht => ?_⟩
  have hparse : parseToon s = some [] := by simp [parseToon, ht]
  have htoon : toonStep s = none := by simp [toonStep, hparse]
  have hfb : fallbackParse s = { response := RespVal.str (stripWrappingQuotes (pyStrip s)) } :=
    rfl
  simp [from_raw, fromRawStr, hj, htoon, hfb]

/-- C1 witness: the amended fallback at a concrete marker-free string. -/
theorem from_raw_recovery_witness :
    jsonStep jl0 " plain text " = none ∧ toonFieldStartsOf " plain text " = [] ∧
    from_raw jl0 (.str " plain text ") = some { response := RespVal.str "plain text" } :=
  ⟨rfl, rfl, (from_raw_recovery jl0).2.2.2 " plain text " rfl rfl⟩

/-- C2: an inference oracle that always yields `action=tool` (with only
unresolvable tool names) makes `invoke` run exactly `max_iterations`
inference calls and return the synthetic exhaustion response as a normal
value, the `max_iterations` trace event being the last one recorded. -/
theorem react_loop_exhaustion (tools : List (String × ToolFn)) (jl : JsonDecoder)
    (infer : Nat → InferOutcome) (maxIters : Nat) (query : String)
    (h : ∀ i, ∃ r, infer i = .ok r ∧ r.action = .tool ∧
      ∀ c ∈ parseToolCalls jl r.response, dictLookup tools c.1 = none) :
    (invokeAgent tools jl infer maxIters query).2 = syntheticExhausted ∧
    (invokeAgent tools jl infer maxIters query).1.inferCalls = maxIters ∧
    (invokeAgent tools jl infer maxIters query).1.events.getLast? = some evMaxIter := by
  have h2 : ∀ i, ∃ r, infer i = .ok r ∧ r.action = .tool := by
    intro i
    obtain ⟨r, hr, ha, -⟩ := h i
    exact ⟨r, hr, ha⟩
  obtain ⟨hnone, hcalls⟩ :=
    runIters_all_tool tools jl infer h2 maxIters 0 { hist := [⟨.user, query⟩] }
  rcases hrun : runIters tools jl infer maxIters 0 { hist := [⟨.user, query⟩] } with ⟨s, ret⟩
  rw [hrun] at hnone hcalls
  simp only at hnone hcalls
  subst hnone
  refine ⟨by simp [invokeAgent, hrun], ?_, ?_⟩
  · simp only [invokeAgent, hrun]
    simpa using hcalls
  · simp [invokeAgent, hrun]

/-- C2 witness: the exhaustion contract at a concrete stub. -/
theorem react_loop_exhaustion_witness :
    (invokeAgent [] jl0 stubInfer 2 "q").2 = syntheticExhausted ∧
    (invokeAgent [] jl0 stubInfer 2 "q").1.inferCalls = 2 ∧
    (invokeAgent [] jl0 stubInfer 2 "q").1.events.getLast? = some evMaxIter :=
  react_loop_exhaustion [] jl0 stubInfer 2 "q"
    (fun _ => ⟨stubResp, rfl, rfl, fun _ _ => rfl⟩)

/-- C3: every exception an iteration can raise (an inference transport
failure, or the `IndexError` while stringifying an empty list response) is
caught at the iteration boundary: the state gains an error trace event and
an error history turn, the step yields no return value, and the loop
proceeds to the next iteration. -/
theorem react_iteration_error_contained (tools : List (String × ToolFn)) (jl : JsonDecoder)
    (infer : Nat → InferOutcome) (idx : Nat) (s : LoopState) :
    (∀ e, infer idx = .raise e →
      stepIter tools jl infer idx s =
        ({ events := s.events ++ [evIterStart, evError],
           hist := s.hist ++ [⟨.user, "Error: " ++ e⟩],
           inferCalls := s.inferCalls + 1 }, none)) ∧
    (∀ r, infer idx = .ok r → r.response = .list [] →
      stepIter tools jl infer idx s =
        ({ events := s.events ++ [evIterStart, evError],
           hist := s.hist ++ [⟨.user, "Error: list index out of range"⟩],
           inferCalls := s.inferCalls + 1 }, none)) ∧
    (∀ (n : Nat) (s2 : LoopState), stepIter tools jl infer idx s = (s2, none) →
      runIters tools jl infer (n + 1) idx s = runIters tools jl infer n (idx + 1) s2) := by
  refine ⟨fun e he => ?_, fun r hr hresp => ?_, fun n s2 hstep => ?_⟩
  · simp [stepIter, he]
  · have hnone : respStrOf r.response = none := by rw [hresp]; rfl
    simp [stepIter, hr, hnone]
  · simp only [runIters, hstep]

/-- C3 witness: a concrete raising inference is contained and the loop
moves on. -/
theorem react_iteration_error_contained_witness :
    stepIter [] jl0 boomInfer 0 { hist := [] } =
      ({ events := [evIterStart, evError],
         hist := [⟨.user, "Error: boom"⟩],
         inferCalls := 1 }, none) ∧
    runIters [] jl0 boomInfer 1 0 { hist := [] } =
      runIters [] jl0 boomInfer 0 1
        { events := [evIterStart, evError],
          hist := [⟨.user, "Error: boom"⟩],
          inferCalls := 1 } := by
  have h := react_iteration_error_contained [] jl0 boomInfer 0 { hist := [] }
  exact ⟨h.1 "boom" rfl, h.2.2 0 _ (h.1 "boom" rfl)⟩

/-- C4 (counterexample): with two tools declaring the same name, the
capability map resolves the name to the second (last-registered) one, not
the first as claimed — `tools_map[name] = fn` overwrites. -/
theorem build_tools_map_counterexample :
    dictLookup (build_tools_map [.func "a" 0, .func "a" 1]) "a" = some (.direct 1) ∧
    Cap.direct 1 ≠ Cap.direct 0 := by
  refine ⟨rfl, ?_⟩
  decide

/-- C4 (amended): the capability map, built once from the declared tool
list, resolves a colliding name deterministically to the capability of the
latest registrable tool carrying it. -/
theorem build_tools_map_last_registered (tools : List PyTool) (name : String) :
    dictLookup (build_tools_map tools) name = lastRegistered tools name := by
  have h := lookup_foldl_regStep tools [] name
  rw [build_tools_map, h]
  cases hlast : lastRegistered tools name <;> simp [dictLookup]

/-- C5 (counterexample): the action-value correction is skipped for an
empty captured action value (left as `""`, not forced to `"tool"`), and an
action value captured as a bracket list makes `_parse_toon` raise
(`.strip()` on a list), so parsing does not force `action` to `"tool"` for
every invalid value. -/
theorem toon_action_coercion_counterexample :
    parseToon "action:" = some [("action", TV.str "")] ∧
    TV.str "" ≠ TV.str "tool" ∧
    parseToon "action: [tool]" = none := by
  refine ⟨rfl, ?_, rfl⟩
  decide

/-- C5 (amended): if pass 1-2 capture `action` as a nonempty plain string
that is neither literal `tool` nor `answer`, the coercion forces `action`
to `"tool"`, and when the invalid value looks like a call expression
(contains `(` or a brace) while no `response` was otherwise captured, the
value is moved into `response`. -/
theorem toon_action_coercion (text : String) (d : List (String × TV)) (v : String)
    (hd : toonData text = some d)
    (hv : dictLookup d "action" = some (.str v))
    (hne : pyStrip v ≠ "") (hnt : pyStrip v ≠ "tool") (hna : pyStrip v ≠ "answer") :
    ∃ d2, parseToon text = some d2 ∧
      dictLookup d2 "action" = some (TV.str "tool") ∧
      (((pyStrip v).toList.contains '(' || (pyStrip v).toList.contains '\x7b') = true →
        respFalsy d = true →
        dictLookup d2 "response" = some (TV.str (pyStrip v))) := by
  have hfs : toonFieldStartsOf text ≠ [] := by
    intro hfs
    rw [show toonData text = some [] from by
      simp [toonData, hfs, buildToonDataAux]] at hd
    simp only [Option.some.injEq] at hd
    subst hd
    simp [dictLookup] at hv
  have hp : parseToon text = actionCoercion d := by
    simp [parseToon, hfs, hd]
  rw [hp]
  unfold actionCoercion
  rw [hv]
  simp only []
  split
  · split
    · refine ⟨_, rfl, ?_, ?_⟩
      · rw [dictLookup_dictInsert]
        simp
      · intro h1 h2
        rw [dictLookup_dictInsert, if_neg (by decide), dictLookup_dictInsert, if_pos rfl]
    · next hmove =>
      refine ⟨_, rfl, ?_, ?_⟩
      · rw [dictLookup_dictInsert]
        simp
      · intro h1 h2
        exact absurd (by rw [h1, h2]; rfl) hmove
  · next hcond =>
    exact absurd (by simp [hne, hnt, hna]) hcond

/-- C5 witness: the spec's own sample, `action: web_search` with a
`response` line, parses with `action = "tool"`. -/
theorem toon_action_coercion_witness :
    ∃ d2, parseToon sampleToonText = some d2 ∧
      dictLookup d2 "action" = some (TV.str "tool") ∧
      (((pyStrip "web_search").toList.contains '(' ||
          (pyStrip "web_search").toList.contains '\x7b') = true →
        respFalsy [("action", TV.str "web_search"),
          ("response", TV.str "web_search(\x7b\"query\":\"x\"\x7d)")] = true →
        dictLookup d2 "response" = some (TV.str (pyStrip "web_search"))) :=
  toon_action_coercion sampleToonText
    [("action", TV.str "web_search"),
     ("response", TV.str "web_search(\x7b\"query\":\"x\"\x7d)")]
    "web_search" rfl rfl (by decide) (by decide) (by decide)

/-- C6: a completion handle is resolved exactly once by the worker —
resolution attempts on a non-pending handle are no-ops, a pending request
is resolved with either the invocation result or the caught error (never
both, by the worker's control flow), and a failing request leaves the
worker processing the remaining queue unchanged. -/
theorem queue_resolve_exactly_once {α : Type} (orchReady : Bool)
    (invoke : String → Except String α) :
    (∀ (f : FutState α) (v : α), f ≠ .pending → resolveResult f v = f) ∧
    (∀ (f : FutState α) (e : String), f ≠ .pending → resolveError f e = f) ∧
    (∀ r : QReq α, r.fut = .pending → orchReady = true →
      ((∃ v, invoke r.text = .ok v ∧ processOne orchReady invoke r = .result v) ∨
       (∃ e, invoke r.text = .error e ∧ processOne orchReady invoke r = .errored e))) ∧
    (∀ (r : QReq α) (rs : List (QReq α)),
      workerRun orchReady invoke (r :: rs) =
        processOne orchReady invoke r :: workerRun orchReady invoke rs) := by
  refine ⟨?_, ?_, ?_, ?_⟩
  · intro f v hf
    cases f with
    | pending => exact absurd rfl hf
    | result w => rfl
    | errored e => rfl
  · intro f e hf
    cases f with
    | pending => exact absurd rfl hf
    | result w => rfl
    | errored e2 => rfl
  · intro r hfut hready
    subst hready
    cases hi : invoke r.text with
    | ok v =>
      left
      exact ⟨v, rfl, by simp [processOne, hi, hfut, resolveResult]⟩
    | error e =>
      right
      exact ⟨e, rfl, by simp [processOne, hi, hfut, resolveError]⟩
  · intro r rs
    rfl

/-- C6 witness: concrete resolutions — a late resolution attempt is a
no-op, and a pending request resolves from the invocation outcome. -/
theorem queue_resolve_exactly_once_witness :
    resolveResult (FutState.result (0 : Nat)) 1 = FutState.result 0 ∧
    resolveError (FutState.result (0 : Nat)) "late" = FutState.result 0 ∧
    ((∃ v, okInvoke "t" = .ok v ∧ processOne true okInvoke ⟨"t", .pending⟩ = .result v) ∨
     (∃ e, okInvoke "t" = .error e ∧ processOne true okInvoke ⟨"t", .pending⟩ = .errored e)) := by
  have h := queue_resolve_exactly_once true okInvoke
  exact ⟨h.1 _ 1 (by decide), h.2.1 _ "late" (by decide), h.2.2.1 ⟨"t", .pending⟩ rfl rfl⟩

/-- C7: starting from a fresh tracer, any sequence of `log_event` calls
emits events whose `seq` values are exactly `[1, 2, ..., N]` for `N` the
number of enabled calls — a gapless, strictly increasing enumeration, hence
globally unique for the tracer's lifetime. -/
theorem tracer_seq_gapless (flags : List Bool) :
    (runLog flags ⟨0, []⟩).emitted = seqFrom 0 (countEnabled flags) ∧
    (runLog flags ⟨0, []⟩).emitted.length = countEnabled flags ∧
    List.Chain' (· < ·) ((runLog flags ⟨0, []⟩).emitted) := by
  have h := runLog_spec flags ⟨0, []⟩
  rw [h]
  refine ⟨by simp, by simp [seqFrom_length], ?_⟩
  simp only [List.nil_append]
  exact seqFrom_chain _ 0

/-- C8: a `trace_scope` call finding no trace id mints one, installs it for
the body, removes it on exit, and emits `trace_start`/`trace_end`; one
finding an existing id inherits it unchanged and emits
`agent_start`/`agent_end`; hence a root invocation with one nested
sub-agent emits four events sharing one trace id, with root lifecycle only
at the root and agent lifecycle only at the nested level. -/
theorem trace_scope_correlation :
    (∀ (ag fresh : String) (body : Option String → List ScopeEv),
      traceScope ag fresh none body =
        (⟨"trace_start", ag, fresh⟩ :: (body (some fresh) ++ [⟨"trace_end", ag, fresh⟩]),
         none)) ∧
    (∀ (ag fresh t : String) (body : Option String → List ScopeEv),
      traceScope ag fresh (some t) body =
        (⟨"agent_start", ag, t⟩ :: (body (some t) ++ [⟨"agent_end", ag, t⟩]), some t)) ∧
    (∀ (root sub f g : String),
      (traceScope root f none (fun c => (traceScope sub g c (fun _ => [])).1)).1 =
        [⟨"trace_start", root, f⟩, ⟨"agent_start", sub, f⟩, ⟨"agent_end", sub, f⟩,
         ⟨"trace_end", root, f⟩]) :=
  ⟨fun _ _ _ => rfl, fun _ _ _ _ => rfl, fun _ _ _ _ => rfl⟩

/-- C9 (implicit): whatever the inference oracle does, the response
returned by `invoke` always carries `action = answer` — either the parsed
answer-branch response or the synthetic exhaustion response. -/
theorem react_invoke_always_answer (tools : List (String × ToolFn)) (jl : JsonDecoder)
    (infer : Nat → InferOutcome) (maxIters : Nat) (query : String) :
    (invokeAgent tools jl infer maxIters query).2.action = .answer := by
  rcases hrun : runIters tools jl infer maxIters 0 { hist := [⟨.user, query⟩] } with ⟨s, ret⟩
  cases ret with
  | some r =>
    have ha := runIters_some_action tools jl infer maxIters 0 { hist := [⟨.user, query⟩] } s r hrun
    simp [invokeAgent, hrun, ha]
  | none => simp [invokeAgent, hrun, syntheticExhausted]

/-- C10 (implicit): `_sanitize` preserves structure — a dict maps to a dict
with the same keys in order, a list to a list of the same length (entries
sanitized in place), ints, floats, bools and `None` are returned unchanged,
and only string values are shortened (via `_truncate`). -/
theorem sanitize_structure (m : Int) :
    (∀ d : List (String × SVal),
      sanitize m (.vdict d) = .vdict (d.map fun kv => (kv.1, sanitize m kv.2)) ∧
      ((d.map fun kv => (kv.1, sanitize m kv.2)).map Prod.fst = d.map Prod.fst)) ∧
    (∀ l : List SVal,
      sanitize m (.vlist l) = .vlist (l.map (sanitize m)) ∧
      (l.map (sanitize m)).length = l.length) ∧
    (∀ n : Int, sanitize m (.vint n) = .vint n) ∧
    (∀ q : Rat, sanitize m (.vfloat q) = .vfloat q) ∧
    (∀ b : Bool, sanitize m (.vbool b) = .vbool b) ∧
    sanitize m .vnone = .vnone ∧
    (∀ s : String, sanitize m (.vstr s) = .vstr (pyTruncate m s)) := by
  refine ⟨fun d => ⟨sanitize_vdict m d, ?_⟩, fun l => ⟨sanitize_vlist m l, by simp⟩,
    fun n => by simp [sanitize], fun q => by simp [sanitize], fun b => by simp [sanitize],
    by simp [sanitize], fun s => by simp [sanitize]⟩
  simp [List.map_map]

end LocalAgents
